import Mathlib

/-!
# Verification of `style_transfer/style_transfer.py` (style-transfer-pytorch)

A shallow embedding of the pure computational content of the stylization
engine.  Tensors are modelled over `ℚ` (elementwise, exact arithmetic in
place of floating point); Python `round` (round-half-to-even) and the
square-root extraction needed by `gen_scales` are implemented exactly over
`ℕ`/`ℤ`; fallible code paths are modelled with `Except`/`Option`.
-/

namespace StyleTransferPy

/-! ## Losses

`ScaledMSELoss.forward` (lines 104-106 of `style_transfer.py`):
`diff = input - target; return diff.pow(2).sum() / diff.abs().sum().add(self.eps)`.
Activations are modelled as flat lists of rationals (tensor order is
irrelevant to sums of elementwise functions). -/

def scaledMSELoss (eps : ℚ) (input target : List ℚ) : ℚ :=
  ((input.zipWith (fun a b => a - b) target).map (fun d => d ^ 2)).sum /
    (((input.zipWith (fun a b => a - b) target).map (fun d => |d|)).sum + eps)

/-- The default `eps=1e-8` used by `ScaledMSELoss`, `ContentLoss`, `StyleLoss`
and `v_beta_loss`. -/
def lossEps : ℚ := 1 / 100000000

/-- Model of `torch.nn.MSELoss()` with its default `'mean'` reduction: the mean of the
elementwise squared differences. -/
def mseLoss (input target : List ℚ) : ℚ :=
  ((input.zipWith (fun a b => a - b) target).map (fun d => d ^ 2)).sum /
    ((input.zipWith (fun a b => a - b) target).length : ℚ)

/-- Model of `ContentLossMSE.forward` (lines 119-126): plain `nn.MSELoss()` against the
target bound at construction time.  This is the content loss `stylize`
actually instantiates (line 467). -/
def contentLossMSE (target input : List ℚ) : ℚ := mseLoss input target

/-- Model of `ContentLoss.forward` (lines 109-116): the `ScaledMSELoss` variant.
Defined in the source but *not* used by `StyleTransfer.stylize`. -/
def contentLoss (eps : ℚ) (target input : List ℚ) : ℚ := scaledMSELoss eps input target

/-- The content-loss term `StyleTransfer.stylize` builds at line 467:
`Scale(LayerApply(ContentLossMSE(target), layer), weight)`, applied to the
layer activation `x`; `Scale.forward` multiplies the module output by the
scale (line 258). -/
def stylizeContentLossTerm (weight : ℚ) (target x : List ℚ) : ℚ :=
  contentLossMSE target x * weight

lemma sum_map_sub_sq_eq (x t : List ℚ) (h : x.length = t.length) :
    ((x.zipWith (fun a b => a - b) t).map (fun d => d ^ 2)).sum =
      ∑ i ∈ Finset.range x.length, (x.getD i 0 - t.getD i 0) ^ 2 := by
  induction x generalizing t with
  | nil => simp
  | cons a x ih =>
    cases t with
    | nil => simp at h
    | cons b t =>
      simp only [List.length_cons, Nat.succ_eq_add_one, Nat.add_right_cancel_iff] at h
      simp only [List.zipWith_cons_cons, List.map_cons, List.sum_cons, List.length_cons,
        Finset.sum_range_succ', List.getD_cons_succ, List.getD_cons_zero, ih t h]
      ring

/-- C1 (counterexample): the content loss that `stylize` applies is *not* the
scaled MSE `‖X−T‖² / (‖X−T‖₁ + ε)`: at activation `X = [2]` with target
`T = [0]` (unit weight) the applied loss is `4`, while the scaled formula
gives `4 / (2 + 1e-8)`. -/
theorem stylize_content_loss_ne_scaled_mse :
    stylizeContentLossTerm 1 [0] [2] ≠ scaledMSELoss lossEps [2] [0] := by
  simp only [stylizeContentLossTerm, contentLossMSE, mseLoss, scaledMSELoss, lossEps]
  norm_num

/-- C1 (amended): the content loss applied during stylization to activation
`X` with target `T` is the plain mean-squared error
`(∑ i, (Xᵢ − Tᵢ)²) / n`, scaled by the content weight — `stylize` uses
`ContentLossMSE` (`nn.MSELoss`), not `ScaledMSELoss`. -/
theorem stylize_content_loss_eq_mse (w : ℚ) (target x : List ℚ)
    (hlen : x.length = target.length) :
    stylizeContentLossTerm w target x =
      (∑ i ∈ Finset.range x.length, (x.getD i 0 - target.getD i 0) ^ 2) /
        (x.length : ℚ) * w := by
  simp only [stylizeContentLossTerm, contentLossMSE, mseLoss,
    sum_map_sub_sq_eq x target hlen, List.length_zipWith, hlen, min_self]

/-- Witness for `stylize_content_loss_eq_mse` at `w = 2`, `T = [1, 0]`,
`X = [3, 5]`: the applied content loss equals `((3−1)² + (5−0)²)/2 · 2`. -/
theorem stylize_content_loss_eq_mse_witness :
    stylizeContentLossTerm 2 [1, 0] [3, 5] =
      (∑ i ∈ Finset.range ([3, 5] : List ℚ).length,
        (([3, 5] : List ℚ).getD i 0 - ([1, 0] : List ℚ).getD i 0) ^ 2) /
        (([3, 5] : List ℚ).length : ℚ) * 2 :=
  stylize_content_loss_eq_mse 2 [1, 0] [3, 5] rfl

/-! ## Weight normalization (C4)

`StyleTransfer.stylize`, lines 404-412, and `StyleTransfer.__init__`,
lines 356-359. -/

/-- Model of `sum(abs(w) for w in ws)`. -/
def sumAbs (ws : List ℚ) : ℚ := (ws.map (fun w => |w|)).sum

/-- Lines 409-410 of `stylize`:
`weight_sum = sum(abs(w) for w in style_weights);`
`style_weights = [weight / weight_sum for weight in style_weights]`.
The source performs the division unguarded: a zero `weight_sum` raises
`ZeroDivisionError` (int weights) or yields NaNs (float weights); in the
`ℚ` model division by zero yields `0`, which likewise fails `Σ|wᵢ| = 1`. -/
def normalizeStyleWeights (ws : List ℚ) : List ℚ :=
  ws.map (fun w => w / sumAbs ws)

/-- Line 404 of `stylize`:
`content_weights = [content_weight / len(self.content_layers)] * len(self.content_layers)`. -/
def contentWeights (content_weight : ℚ) (numContentLayers : ℕ) : List ℚ :=
  List.replicate numContentLayers (content_weight / (numContentLayers : ℚ))

/-- Model of `self.content_layers = [22]` (line 353). -/
def contentLayers : List ℕ := [22]

/-- Model of `self.style_layers = [1, 6, 11, 20, 29]` (line 354). -/
def styleLayers : List ℕ := [1, 6, 11, 20, 29]

/-- Model of `style_weights = [256, 64, 16, 4, 1]` (line 357). -/
def styleWeightsRaw : List ℚ := [256, 64, 16, 4, 1]

/-- The per-style-layer weights `__init__` builds (lines 358-359):
`weight_sum = sum(abs(w) for w in style_weights);`
`self.style_weights = [w / weight_sum for w in style_weights]`. -/
def styleLayerWeights : List ℚ :=
  styleWeightsRaw.map (fun w => w / sumAbs styleWeightsRaw)

/-- The default `content_weight: float = 0.015` (line 388). -/
def defaultContentWeight : ℚ := 15 / 1000

lemma sumAbs_nonneg (ws : List ℚ) : 0 ≤ sumAbs ws := by
  induction ws with
  | nil => simp [sumAbs]
  | cons a ws ih =>
    simp only [sumAbs, List.map_cons, List.sum_cons]
    exact add_nonneg (abs_nonneg a) ih

lemma sumAbs_map_div (ws : List ℚ) (s : ℚ) :
    sumAbs (ws.map (fun w => w / s)) = sumAbs ws / |s| := by
  induction ws with
  | nil => simp [sumAbs]
  | cons a ws ih =>
    simp only [sumAbs, List.map_cons, List.sum_cons] at ih ⊢
    rw [abs_div, ih, add_div]

/-- C4 (counterexample): with the default `content_weight = 0.015` and the
single content layer `[22]`, the content-layer weights the engine builds sum
to `0.015` in absolute value, not `1`; and the all-zero style-weight vector
`[0]` does not normalize to absolute sum `1` (the source divides by the zero
weight sum: `ZeroDivisionError`/NaN; `0` in the `ℚ` model). -/
theorem weight_sums_counterexample :
    sumAbs (contentWeights defaultContentWeight contentLayers.length) ≠ 1 ∧
      sumAbs (normalizeStyleWeights [0]) ≠ 1 := by
  constructor
  · simp only [contentWeights, defaultContentWeight, contentLayers, sumAbs,
      normalizeStyleWeights]
    norm_num [abs_of_pos]
  · simp only [normalizeStyleWeights, sumAbs]
    norm_num

/-- C4 (amended): for every user-supplied style-weight vector whose absolute
sum is nonzero (including vectors with negative entries), the normalized
weights satisfy `Σ|wᵢ| = 1`; the fixed per-style-layer weights
`[256,64,16,4,1]/341` sum to `1` in absolute value; but the per-content-layer
weights sum to `|content_weight|` (default `0.015`), not `1`. -/
theorem weight_normalization_sums (ws : List ℚ) (hws : sumAbs ws ≠ 0)
    (cw : ℚ) (n : ℕ) (hn : 0 < n) :
    sumAbs (normalizeStyleWeights ws) = 1 ∧
      sumAbs styleLayerWeights = 1 ∧
      sumAbs (contentWeights cw n) = |cw| := by
  refine ⟨?_, ?_, ?_⟩
  · rw [normalizeStyleWeights, sumAbs_map_div,
      abs_of_nonneg (sumAbs_nonneg ws), div_self hws]
  · simp only [styleLayerWeights, styleWeightsRaw, sumAbs, List.map_cons,
      List.map_nil, List.sum_cons, List.sum_nil]
    norm_num [abs_of_pos]
  · have hn' : (n : ℚ) ≠ 0 := Nat.cast_ne_zero.mpr hn.ne'
    simp only [contentWeights, sumAbs, List.map_replicate, List.sum_replicate,
      nsmul_eq_mul, abs_div, Nat.abs_cast]
    field_simp

/-- Witness for `weight_normalization_sums` at the style-weight vector
`[3, -1]` (negative entry, absolute sum `4`) and content weight `0.015`
over one content layer. -/
theorem weight_normalization_sums_witness :
    sumAbs (normalizeStyleWeights [3, -1]) = 1 ∧
      sumAbs styleLayerWeights = 1 ∧
      sumAbs (contentWeights (15 / 1000) 1) = |(15 / 1000 : ℚ)| :=
  weight_normalization_sums [3, -1]
    (by simp only [sumAbs, List.map_cons, List.map_nil, List.sum_cons,
          List.sum_nil]; norm_num)
    (15 / 1000) 1 Nat.one_pos

/-! ## Bias-corrected exponential moving average (C6)

`class EMA(nn.Module)`, lines 274-290.  The buffers `value` (shape of the
input tensor, modelled as a list of rationals), `decay` and `accum` are the
module's state; all tensor operations involved are elementwise. -/

structure EMAState where
  value : List ℚ
  decay : ℚ
  accum : ℚ

/-- Model of `EMA.update` (lines 287-290):
`self.accum *= self.decay; self.value *= self.decay;`
`self.value += (1 - self.decay) * input`. -/
def EMAState.update (e : EMAState) (input : List ℚ) : EMAState :=
  { e with
    accum := e.accum * e.decay
    value := e.value.zipWith (fun v x => e.decay * v + (1 - e.decay) * x) input }

/-- Model of `EMA.get` (lines 284-285): `return self.value / (1 - self.accum)`. -/
def EMAState.get (e : EMAState) : List ℚ :=
  e.value.map (fun v => v / (1 - e.accum))

/-- Model of `EMA.__init__` (lines 277-282): `value` is zero-initialized with the
input's shape, `accum` starts at `1`, and `update(input)` is called once. -/
def EMAState.init (input : List ℚ) (decay : ℚ) : EMAState :=
  EMAState.update ⟨List.replicate input.length 0, decay, 1⟩ input

lemma zipWith_replicate_zero (d : ℚ) (x : List ℚ) :
    (List.replicate x.length (0 : ℚ)).zipWith
        (fun v xi => d * v + (1 - d) * xi) x =
      x.map (fun xi => (1 - d) * xi) := by
  induction x with
  | nil => simp
  | cons a x ih => simp [List.replicate_succ, ih]

/-- C6: every `update` multiplies the accumulator by the decay and replaces
`value` by `d·value + (1−d)·x` elementwise, `get` divides `value` by
`1 − accum`, and after the single `update(x)` performed from the
zero-initialized state (as in `EMA.__init__`) `get()` returns `x` exactly,
for every `x` and every decay `d ∈ (0,1)`. -/
theorem ema_bias_correction (e : EMAState) (x input : List ℚ) (d : ℚ)
    (_hd0 : 0 < d) (hd1 : d < 1) :
    (e.update input).accum = e.accum * e.decay ∧
      (e.update input).value =
        e.value.zipWith (fun v xi => e.decay * v + (1 - e.decay) * xi) input ∧
      e.get = e.value.map (fun v => v / (1 - e.accum)) ∧
      (EMAState.init x d).get = x := by
  refine ⟨rfl, rfl, rfl, ?_⟩
  have hne : (1 : ℚ) - d ≠ 0 := sub_ne_zero.mpr hd1.ne'
  simp only [EMAState.init, EMAState.update, EMAState.get, one_mul,
    zipWith_replicate_zero, List.map_map]
  have : ((fun v => v / (1 - d)) ∘ fun xi => (1 - d) * xi) = fun xi : ℚ => xi := by
    funext xi
    simp [Function.comp, mul_div_assoc, mul_comm, div_self hne]
  rw [this, List.map_id']

/-- Witness for `ema_bias_correction` at decay `1/2` and input `[3, -2]`. -/
theorem ema_bias_correction_witness :
    ((⟨[1], 1/2, 1⟩ : EMAState).update [5]).accum = 1 * (1/2) ∧
      ((⟨[1], 1/2, 1⟩ : EMAState).update [5]).value =
        ([1] : List ℚ).zipWith (fun v xi => (1/2) * v + (1 - 1/2) * xi) [5] ∧
      (⟨[1], 1/2, 1⟩ : EMAState).get =
        ([1] : List ℚ).map (fun v => v / (1 - 1)) ∧
      (EMAState.init [3, -2] (1/2)).get = [3, -2] :=
  ema_bias_correction ⟨[1], 1/2, 1⟩ [3, -2] [5] (1/2) (by norm_num) (by norm_num)

/-! ## Python rounding

Python's built-in `round` (and `np.round`) round half to even.  For a
non-tie fractional part this agrees with Mathlib's `round` (= `⌊q + 1/2⌋`,
half up); ties pick the even neighbour. -/

/-- Round half to even on a rational. -/
def roundHalfEvenQ (q : ℚ) : ℤ :=
  if q - ⌊q⌋ = 1 / 2 then (if 2 ∣ ⌊q⌋ then ⌊q⌋ else ⌊q⌋ + 1) else round q

/-! ## `StyleTransfer.get_image` (C10)

Lines 372-384.  `self.average` is `None` until the first scale of a
stylization run constructs it (line 459); `get_image` renders only when it
is set and otherwise falls through, implicitly returning `None` without
inspecting `image_type`. -/

/-- Python `str.lower()`, modelled as a character-wise map (ASCII inputs). -/
def pyLower (s : String) : String := ⟨s.data.map Char.toLower⟩

/-- Model of `get_image_tensor` (lines 372-373):
`self.average.get().detach()[0].clamp(0, 1)` (batch indexing and `detach`
are identities in the flat model). -/
def getImageTensor (avg : EMAState) : List ℚ :=
  avg.get.map (fun v => min (max v 0) 1)

/-- The two renderings `get_image` can produce: `TF.to_pil_image(image)` or
`np.uint16(np.round(arr * 65535))`. -/
inductive RenderedImage where
  | pil (data : List ℚ)
  | npUint16 (data : List ℤ)

/-- Model of `get_image` (lines 375-384).  The `if self.average is not None:` guard
wraps the whole body; when the guard fails the function implicitly returns
`None`.  Inside the guard, an unrecognized `image_type` (compared after
`.lower()`) raises `ValueError`. -/
def getImage (average : Option EMAState) (imageType : String) :
    Except String (Option RenderedImage) :=
  match average with
  | some avg =>
    if pyLower imageType = "pil" then
      .ok (some (.pil (getImageTensor avg)))
    else if pyLower imageType = "np_uint16" then
      .ok (some (.npUint16 ((getImageTensor avg).map
        (fun v => roundHalfEvenQ (v * 65535)))))
    else .error "image_type must be 'pil' or 'np_uint16'"
  | none => .ok none

/-- C10: with no stylization run performed (`average` unset), `get_image`
returns `None` without raising, for *every* format argument — recognized,
default, or unrecognized (the first conjunct is unconditional in
`imageType`); an error is raised only when a rendered image exists
(`average` set); and with `average` set an unrecognized format does raise. -/
theorem get_image_unset_returns_none (imageType : String) (avg : Option EMAState)
    (a : EMAState) (e : String) :
    getImage none imageType = .ok none ∧
      (getImage avg imageType = .error e → avg ≠ none) ∧
      (pyLower imageType ≠ "pil" → pyLower imageType ≠ "np_uint16" →
        getImage (some a) imageType =
          .error "image_type must be 'pil' or 'np_uint16'") := by
  refine ⟨rfl, ?_, ?_⟩
  · intro h hnone
    subst hnone
    simp [getImage] at h
  · intro hp hn
    simp [getImage, hp, hn]

/-- Witness for `get_image_unset_returns_none`, applied both at the
unrecognized format `"bogus"` (whose error conjunct's hypotheses are
dischargeable) and at the default recognized format `"pil"` (showing the
unset-average conjunct holds there too). -/
theorem get_image_unset_returns_none_witness :
    (getImage none "bogus" = .ok none ∧
      (getImage (some ⟨[], 1/2, 1⟩) "bogus" = .error "x" →
        (some (⟨[], 1/2, 1⟩ : EMAState)) ≠ none) ∧
      (pyLower "bogus" ≠ "pil" → pyLower "bogus" ≠ "np_uint16" →
        getImage (some ⟨[], 1/2, 1⟩) "bogus" =
          .error "image_type must be 'pil' or 'np_uint16'")) ∧
      getImage none "pil" = .ok none :=
  ⟨get_image_unset_returns_none "bogus" (some ⟨[], 1/2, 1⟩) ⟨[], 1/2, 1⟩ "x",
    (get_image_unset_returns_none "pil" (some ⟨[], 1/2, 1⟩) ⟨[], 1/2, 1⟩ "x").1⟩

/-! ## `scale_adam` (C9)

Lines 322-332: cross-scale resizing of the Adam optimizer state. -/

/-- The interpolation modes `scale_adam` passes to `F.interpolate`. -/
inductive IMode where
  | bilinear
  | bicubic

/-- Model of `.relu_()`: elementwise `max(x, 0)`, clamping to be non-negative. -/
def reluList (l : List ℚ) : List ℚ := l.map (fun x => max x 0)

/-- One value of `state['state']`: the per-parameter Adam buffers.
`max_exp_avg_sq` is present only when Adam runs with `amsgrad`. -/
structure AdamGroup where
  exp_avg : List ℚ
  exp_avg_sq : List ℚ
  max_exp_avg_sq : Option (List ℚ)

/-- Model of `scale_adam(state, shape)` (lines 322-332), with `F.interpolate`
abstracted as `interp mode tensor shape`:
`group['exp_avg'] = interpolate(exp_avg, shape, mode='bicubic')`;
`group['exp_avg_sq'] = interpolate(exp_avg_sq, shape, mode='bilinear').relu_()`;
and the same bilinear-plus-relu treatment for `max_exp_avg_sq` when present.
The source deep-copies the state dict first; the functional map models that. -/
def scaleAdam (interp : IMode → List ℚ → ℕ × ℕ → List ℚ)
    (state : List AdamGroup) (shape : ℕ × ℕ) : List AdamGroup :=
  state.map fun g =>
    { exp_avg := interp .bicubic g.exp_avg shape
      exp_avg_sq := reluList (interp .bilinear g.exp_avg_sq shape)
      max_exp_avg_sq := g.max_exp_avg_sq.map
        (fun m => reluList (interp .bilinear m shape)) }

/-- C9: for every Adam state and target shape, each resized group comes from
a source group whose first moment was resized bicubically, whose second
moment was resized bilinearly and clamped non-negative (every entry `≥ 0`),
and whose running maximum, when present, got the same bilinear-plus-clamp
treatment. -/
theorem scale_adam_interpolation_modes
    (interp : IMode → List ℚ → ℕ × ℕ → List ℚ)
    (state : List AdamGroup) (shape : ℕ × ℕ) (g : AdamGroup)
    (hg : g ∈ scaleAdam interp state shape) :
    ∃ g₀ ∈ state,
      g.exp_avg = interp .bicubic g₀.exp_avg shape ∧
      g.exp_avg_sq = reluList (interp .bilinear g₀.exp_avg_sq shape) ∧
      (∀ y ∈ g.exp_avg_sq, 0 ≤ y) ∧
      g.max_exp_avg_sq = g₀.max_exp_avg_sq.map
        (fun m => reluList (interp .bilinear m shape)) ∧
      (∀ m ∈ g.max_exp_avg_sq, ∀ y ∈ m, 0 ≤ y) := by
  obtain ⟨g₀, hg₀, rfl⟩ := List.mem_map.mp hg
  refine ⟨g₀, hg₀, rfl, rfl, ?_, rfl, ?_⟩
  · intro y hy
    obtain ⟨x, _, rfl⟩ := List.mem_map.mp hy
    exact le_max_right x 0
  · intro m hm y hy
    simp only [Option.mem_def, Option.map_eq_some'] at hm
    obtain ⟨m₀, _, rfl⟩ := hm
    obtain ⟨x, _, rfl⟩ := List.mem_map.mp hy
    exact le_max_right x 0

/-- Witness for `scale_adam_interpolation_modes` with identity resampling on
the one-group state `{exp_avg := [1], exp_avg_sq := [-2], max := [-3]}`. -/
theorem scale_adam_interpolation_modes_witness :
    ∃ g₀ ∈ [(⟨[1], [-2], some [-3]⟩ : AdamGroup)],
      (⟨[1], [max (-2) 0], some [max (-3) 0]⟩ : AdamGroup).exp_avg =
        (fun _ l _ => l : IMode → List ℚ → ℕ × ℕ → List ℚ) .bicubic g₀.exp_avg (4, 4) ∧
      (⟨[1], [max (-2) 0], some [max (-3) 0]⟩ : AdamGroup).exp_avg_sq =
        reluList ((fun _ l _ => l : IMode → List ℚ → ℕ × ℕ → List ℚ) .bilinear g₀.exp_avg_sq (4, 4)) ∧
      (∀ y ∈ (⟨[1], [max (-2) 0], some [max (-3) 0]⟩ : AdamGroup).exp_avg_sq, 0 ≤ y) ∧
      (⟨[1], [max (-2) 0], some [max (-3) 0]⟩ : AdamGroup).max_exp_avg_sq =
        g₀.max_exp_avg_sq.map
          (fun m => reluList ((fun _ l _ => l : IMode → List ℚ → ℕ × ℕ → List ℚ) .bilinear m (4, 4))) ∧
      (∀ m ∈ (⟨[1], [max (-2) 0], some [max (-3) 0]⟩ : AdamGroup).max_exp_avg_sq,
        ∀ y ∈ m, 0 ≤ y) :=
  scale_adam_interpolation_modes (fun _ l _ => l) [⟨[1], [-2], some [-3]⟩] (4, 4)
    ⟨[1], [max (-2) 0], some [max (-3) 0]⟩
    (by simp [scaleAdam, reluList])

/-! ## `StyleTransfer.__init__` (C3)

Lines 346-370.  The constructor sets `self.image = None` and
`self.average = None` (no image allocation), builds the layer lists and the
normalized style-layer weights, *then constructs the VGG feature model*
(`self.model = VGGFeatures(...)`, line 361 — the pretrained network is
loaded here), and only afterwards checks the device count (lines 363-368),
raising `ValueError('Only 1 or 2 devices are supported.')` otherwise.
Allocations are recorded as an ordered event trace so the claim about
ordering is statable. -/

inductive InitEvent where
  | modelAlloc
  | imageAlloc
deriving DecidableEq

/-- The state a successful construction produces. -/
structure EngineInit where
  devices : List String
  content_layers : List ℕ
  style_layers : List ℕ
  style_weights : List ℚ
  devicePlan : List (ℕ × String)

/-- Model of `StyleTransfer.__init__(devices)`, returning the ordered allocation
trace together with the outcome.  The trace contains `modelAlloc` (line 361)
unconditionally, before the device-count check; `self.image`/`self.average`
are merely set to `None`, so no `imageAlloc` ever occurs here. -/
def styleTransferInit (devices : List String) :
    List InitEvent × Except String EngineInit :=
  let events := [InitEvent.modelAlloc]
  if devices.length = 1 then
    (events, .ok ⟨devices, contentLayers, styleLayers, styleLayerWeights,
      [(0, devices.headD "")]⟩)
  else if devices.length = 2 then
    (events, .ok ⟨devices, contentLayers, styleLayers, styleLayerWeights,
      [(0, devices.headD ""), (5, devices.getD 1 "")]⟩)
  else
    (events, .error "Only 1 or 2 devices are supported.")

/-- C3 (counterexample): constructing with three devices does raise the
configuration error, but only *after* the VGG feature model has been
constructed — the allocation trace at the moment of the raise already
contains `modelAlloc`, contradicting "before any model or image allocation
occurs". -/
theorem init_model_alloc_precedes_device_error :
    (styleTransferInit ["cpu", "cuda:0", "cuda:1"]).2 =
        .error "Only 1 or 2 devices are supported." ∧
      InitEvent.modelAlloc ∈ (styleTransferInit ["cpu", "cuda:0", "cuda:1"]).1 := by
  constructor
  · rfl
  · simp [styleTransferInit]

/-- C3 (amended): constructing the engine with three or more compute devices
raises the configuration error `'Only 1 or 2 devices are supported.'` after
the feature model is constructed but before any image allocation (the trace
is exactly `[modelAlloc]`, with no `imageAlloc`); construction with one or
two devices succeeds. -/
theorem init_device_count_check (devices d1 d2 : List String)
    (h3 : 3 ≤ devices.length) (hd1 : d1.length = 1) (hd2 : d2.length = 2) :
    ((styleTransferInit devices).2 = .error "Only 1 or 2 devices are supported." ∧
      (styleTransferInit devices).1 = [InitEvent.modelAlloc] ∧
      InitEvent.imageAlloc ∉ (styleTransferInit devices).1) ∧
      (∃ c, (styleTransferInit d1).2 = .ok c) ∧
      ∃ c, (styleTransferInit d2).2 = .ok c := by
  refine ⟨⟨?_, ?_, ?_⟩, ?_, ?_⟩
  · have h1 : devices.length ≠ 1 := by omega
    have h2 : devices.length ≠ 2 := by omega
    simp [styleTransferInit, h1, h2]
  · have h1 : devices.length ≠ 1 := by omega
    have h2 : devices.length ≠ 2 := by omega
    simp [styleTransferInit, h1, h2]
  · simp only [styleTransferInit]
    split_ifs <;> simp
  · refine ⟨⟨d1, contentLayers, styleLayers, styleLayerWeights,
      [(0, d1.headD "")]⟩, ?_⟩
    simp [styleTransferInit, hd1]
  · have h1 : d2.length ≠ 1 := by omega
    refine ⟨⟨d2, contentLayers, styleLayers, styleLayerWeights,
      [(0, d2.headD ""), (5, d2.getD 1 "")]⟩, ?_⟩
    simp [styleTransferInit, h1, hd2]

/-- Witness for `init_device_count_check` at three, one and two devices. -/
theorem init_device_count_check_witness :
    ((styleTransferInit ["cpu", "cpu", "cpu"]).2 =
        .error "Only 1 or 2 devices are supported." ∧
      (styleTransferInit ["cpu", "cpu", "cpu"]).1 = [InitEvent.modelAlloc] ∧
      InitEvent.imageAlloc ∉ (styleTransferInit ["cpu", "cpu", "cpu"]).1) ∧
      (∃ c, (styleTransferInit ["cpu"]).2 = .ok c) ∧
      ∃ c, (styleTransferInit ["cpu", "cuda:0"]).2 = .ok c :=
  init_device_count_check ["cpu", "cpu", "cpu"] ["cpu"] ["cpu", "cuda:0"]
    (by decide) rfl rfl

/-! ## `v_beta_loss` / `VBetaLoss` (C2)

Lines 184-232.  An image in `...CHW` format is modelled as a function
`ℕ → ℕ → ℕ → ℚ` (channel, row, column) with explicit dimensions `c h w`.
`F.pad(x, (1,1,1,1), "replicate")` followed by the `l`/`m`/`h` slices means
the slice at output pixel `(i, j)` reads the original image at the
neighbour index clamped into range: `-1` clamps to `0` (which truncated `ℕ`
subtraction gives directly) and `+1` clamps to `dim - 1`.

`torch.pow(· , beta / 2)` on floats does not translate to `ℚ`; the power
is abstracted as a function `p : ℚ → ℚ` standing for `t ↦ t ^ (β/2)`
(`β = 2` gives `p = id`), quantified over in the theorems, which models
"for every exponent β". -/

/-- The nine-point stencil sum `ml + mh + lm + hm + ll + hh + lh + hl` of
`v_beta_loss` (lines 209-220) at channel `ci`, output pixel `(i, j)`:
squared differences to the 8 replicate-padded neighbours, axis neighbours
weighted `1/4` and diagonal neighbours `1/8`. -/
def stencilDiffs (h w : ℕ) (x : ℕ → ℕ → ℕ → ℚ) (ci i j : ℕ) : ℚ :=
  let t := x ci i j
  (x ci i (j - 1) - t) ^ 2 / 4 +
    (x ci i (min (j + 1) (w - 1)) - t) ^ 2 / 4 +
    (x ci (i - 1) j - t) ^ 2 / 4 +
    (x ci (min (i + 1) (h - 1)) j - t) ^ 2 / 4 +
    (x ci (i - 1) (j - 1) - t) ^ 2 / 8 +
    (x ci (min (i + 1) (h - 1)) (min (j + 1) (w - 1)) - t) ^ 2 / 8 +
    (x ci (i - 1) (min (j + 1) (w - 1)) - t) ^ 2 / 8 +
    (x ci (min (i + 1) (h - 1)) (j - 1) - t) ^ 2 / 8

/-- Model of `v_beta_loss(x, reduction="mean", channel_reduction=None, beta, eps)`
(lines 184-222) with both reductions at their default `"mean"`:
`losses = pow(mean_over_channels(diffs) + eps, beta / 2)` followed by the
spatial mean. -/
def vBetaLoss (p : ℚ → ℚ) (eps : ℚ) (c h w : ℕ) (x : ℕ → ℕ → ℕ → ℚ) : ℚ :=
  (∑ i ∈ Finset.range h, ∑ j ∈ Finset.range w,
      p ((∑ ci ∈ Finset.range c, stencilDiffs h w x ci i j) / (c : ℚ) + eps)) /
    ((h : ℚ) * (w : ℚ))

/-- Model of `VBetaLoss.forward(x)` (lines 231-232): `v_beta_loss(x * 4, beta, eps)`. -/
def vBetaLossModuleApply (p : ℚ → ℚ) (eps : ℚ) (c h w : ℕ)
    (x : ℕ → ℕ → ℕ → ℚ) : ℚ :=
  vBetaLoss p eps c h w (fun ci i j => x ci i j * 4)

lemma stencilDiffs_const (h w : ℕ) (k : ℚ) (ci i j : ℕ) :
    stencilDiffs h w (fun _ _ _ => k) ci i j = 0 := by
  simp [stencilDiffs]

/-- C2 (counterexample): on the spatially constant `1×1×1` image of value
`1/2`, with `β = 2` (so the `β/2` power is the identity) and the default
`ε = 1e-8`, the `VBetaLoss` module evaluates to `1e-8`, not `0`: all stencil
differences vanish, but `eps` is added *before* the `β/2` power. -/
theorem v_beta_loss_const_ne_zero :
    vBetaLossModuleApply (fun t => t) lossEps 1 1 1 (fun _ _ _ => 1 / 2) ≠ 0 := by
  simp only [vBetaLossModuleApply, vBetaLoss, lossEps, Finset.sum_range_succ,
    Finset.sum_range_zero, stencilDiffs]
  norm_num

/-- C2 (amended): on every spatially constant image and for every exponent
(every `β/2` power function `p`), all nine-point stencil differences vanish,
and the regularizer evaluates to `p(ε)` — i.e. `ε^(β/2)`, which is `1e-8`
at `β = 2` with the default `ε`, not `0`. -/
theorem v_beta_loss_on_const (p : ℚ → ℚ) (eps k : ℚ) (c h w ci i j : ℕ)
    (hc : 0 < c) (hh : 0 < h) (hw : 0 < w) :
    stencilDiffs h w (fun _ _ _ => k) ci i j = 0 ∧
      vBetaLossModuleApply p eps c h w (fun _ _ _ => k) = p eps := by
  refine ⟨stencilDiffs_const h w k ci i j, ?_⟩
  have hc' : (c : ℚ) ≠ 0 := Nat.cast_ne_zero.mpr hc.ne'
  have hh' : (h : ℚ) ≠ 0 := Nat.cast_ne_zero.mpr hh.ne'
  have hw' : (w : ℚ) ≠ 0 := Nat.cast_ne_zero.mpr hw.ne'
  simp only [vBetaLossModuleApply, vBetaLoss, stencilDiffs_const,
    Finset.sum_const, Finset.card_range, smul_zero, zero_div, zero_add,
    nsmul_eq_mul]
  field_simp
  ring

/-- Witness for `v_beta_loss_on_const`: the identity power (`β = 2`) on a
constant `1×1×1` image of value `1/2` gives stencil sum `0` and loss
`ε = 1e-8`. -/
theorem v_beta_loss_on_const_witness :
    stencilDiffs 1 1 (fun _ _ _ => (1 / 2 : ℚ)) 0 0 0 = 0 ∧
      vBetaLossModuleApply (fun t => t) lossEps 1 1 1 (fun _ _ _ => 1 / 2) =
        (fun t : ℚ => t) lossEps :=
  v_beta_loss_on_const (fun t => t) lossEps (1 / 2) 1 1 1 0 0 0
    Nat.one_pos Nat.one_pos Nat.one_pos

/-! ## `gen_scales` (C5)

Lines 305-313:
`scale = end; i = 0; scales = set()`
`while scale >= start: scales.add(scale); i += 1; scale = round(end / pow(2, i/2))`
`return sorted(scales)`

The arithmetic is reproduced exactly over `ℕ`.  Python `round` rounds half
to even.  For even `i = 2k` the value `end / 2^k` is rational and rounded
by `natRoundHalfEven`.  For odd `i = 2k+1` the value is `end·√2 / 2^(k+1)`,
irrational for `end > 0` (so the tie-breaking rule is moot), and
`round(x) = ⌊x + 1/2⌋ = ⌊(2·end·√2 + b) / (2b)⌋` with `b = 2^(k+1)`;
since `⌊(y + c) / d⌋ = ⌊(⌊y⌋ + c) / d⌋` for integer `c, d > 0` and
`⌊2·end·√2⌋ = ⌊√(8·end²)⌋`, this is `(Nat.sqrt (8·end²) + b) / (2b)` in
natural division.  `Nat.sqrt` is not kernel-reducible, so an equivalent
structural digit-by-digit square root `sqrtBits` is used, proved equal to
`Nat.sqrt` below. -/

/-- One digit-by-digit step: given `r = ⌊√(m/4)⌋`, produce `⌊√m⌋`
(which is `2r` or `2r+1`). -/
def sqrtStep (m r : ℕ) : ℕ :=
  if (2 * r + 1) * (2 * r + 1) ≤ m then 2 * r + 1 else 2 * r

/-- Kernel-executable integer square root by digit-by-digit recursion on
`m / 4`; the fuel only bounds the recursion depth (which is `O(log m)`) and
agrees with `Nat.sqrt` whenever `m < 4 ^ fuel` (`isqrt_eq`). -/
def isqrt : ℕ → ℕ → ℕ
  | 0, _ => 0
  | fuel + 1, m => if m = 0 then 0 else sqrtStep m (isqrt fuel (m / 4))

lemma sqrtStep_sqrt (m : ℕ) : sqrtStep m (Nat.sqrt (m / 4)) = Nat.sqrt m := by
  set s := Nat.sqrt (m / 4) with hs
  have hlow : (2 * s) * (2 * s) ≤ m := by
    have h1 : s * s ≤ m / 4 := Nat.sqrt_le (m / 4)
    have h2 : m / 4 * 4 ≤ m := Nat.div_mul_le_self m 4
    nlinarith
  have hhigh : m < (2 * s + 2) * (2 * s + 2) := by
    have h1 : m / 4 < (s + 1) * (s + 1) := Nat.lt_succ_sqrt (m / 4)
    have h2 : 4 * (m / 4) + m % 4 = m := Nat.div_add_mod m 4
    have h3 : m % 4 < 4 := Nat.mod_lt m (by omega)
    nlinarith
  rw [sqrtStep]
  split_ifs with h
  · have hub : Nat.sqrt m < 2 * s + 2 := Nat.sqrt_lt.mpr hhigh
    have hlb : 2 * s + 1 ≤ Nat.sqrt m := Nat.le_sqrt.mpr h
    omega
  · have hub : Nat.sqrt m < 2 * s + 1 := Nat.sqrt_lt.mpr (by omega)
    have hlb : 2 * s ≤ Nat.sqrt m := Nat.le_sqrt.mpr hlow
    omega

lemma isqrt_eq : ∀ (fuel m : ℕ), m < 4 ^ fuel → isqrt fuel m = Nat.sqrt m := by
  intro fuel
  induction fuel with
  | zero =>
    intro m hm
    interval_cases m
    simp [isqrt]
  | succ fuel ih =>
    intro m hm
    rw [isqrt]
    split_ifs with h0
    · simp [h0]
    · rw [ih (m / 4) ?_, sqrtStep_sqrt]
      have : m < 4 * 4 ^ fuel := by rw [← pow_succ']; exact hm
      exact (Nat.div_lt_iff_lt_mul (by omega)).mpr (by omega)

/-- Python `round(a / b)` for naturals (`b > 0`): round half to even. -/
def natRoundHalfEven (a b : ℕ) : ℕ :=
  if b = 0 then 0
  else
    let q := a / b
    let r := a % b
    if 2 * r < b then q
    else if b < 2 * r then q + 1
    else if q % 2 = 0 then q else q + 1

/-- Model of `round(end / pow(2, i / 2))` computed exactly (see the section header
for the derivation of the odd case); `isqrt` fuel `end + 2` suffices since
`8·end² < 4^(end+2)`. -/
def roundDivPow2Half (endv i : ℕ) : ℕ :=
  if i % 2 = 0 then natRoundHalfEven endv (2 ^ (i / 2))
  else
    let b := 2 ^ (i / 2 + 1)
    (isqrt (endv + 2) (8 * endv ^ 2) + b) / (2 * b)

/-- Ascending insertion of an element into a sorted list (used to model
Python's `sorted`). -/
def insertSorted (x : ℕ) : List ℕ → List ℕ
  | [] => [x]
  | y :: ys => if x ≤ y then x :: y :: ys else y :: insertSorted x ys

/-- Structural insertion sort, modelling Python's `sorted(...)` ascending. -/
def insertionSort : List ℕ → List ℕ
  | [] => []
  | x :: xs => insertSorted x (insertionSort xs)

/-- The `while` loop of `gen_scales`, with an explicit fuel bounding the
iteration count (the loop itself has no termination guarantee:
`gen_scales(0, e)` loops forever in Python; the fuel is never exhausted on
the inputs evaluated here).  The Python `set` is modelled as a list with
membership-checked insertion (`List.insert`). -/
def genScalesAux (start endv : ℕ) : ℕ → ℕ → ℕ → List ℕ → List ℕ
  | 0, _, _, acc => acc
  | fuel + 1, i, scale, acc =>
    if start ≤ scale then
      genScalesAux start endv fuel (i + 1) (roundDivPow2Half endv (i + 1))
        (acc.insert scale)
    else acc

/-- Model of `gen_scales(start, end)`: run the loop from `i = 0, scale = end` on an
empty set, then `sorted(scales)` ascending. -/
def gen_scales (start endv : ℕ) : List ℕ :=
  insertionSort (genScalesAux start endv (2 * endv + 4) 0 endv [])

set_option maxRecDepth 4000 in
/-- C5: `gen_scales(128, 512)` returns exactly the strictly increasing list
`[128, 181, 256, 362, 512]` (the roundings of `512 / 2^(k/2)` for
`k = 0..4`, deduplicated and sorted ascending; `k = 5` gives `91 < 128` and
stops the loop). -/
theorem gen_scales_128_512 : gen_scales 128 512 = [128, 181, 256, 362, 512] := by
  decide

/-! ## `VGGFeatures._get_min_size` and `VGGFeatures.forward` (C8)

Lines 61-90.  The network layers themselves are external collaborators, so
the per-layer computation is abstracted as `layerF : ℕ → α → α` and the
input normalization as `normalize : α → α`; everything else (the minimum
input-size check and the construction of the returned feature mapping) is
embedded from the source. -/

/-- The layer indices of the five spatial-downsampling (pooling) stages of
VGG-19, `[4, 9, 18, 27, 36]` (line 65). -/
def poolLayerIdx : List ℕ := [4, 9, 18, 27, 36]

/-- The `for layer in [4, 9, 18, 27, 36]` loop of `_get_min_size`
(lines 64-68): double `min_size` for each pooling index not exceeding the
deepest requested layer, stopping at the first one that exceeds it. -/
def getMinSizeAux (last : ℕ) : List ℕ → ℕ → ℕ
  | [], m => m
  | p :: ps, m => if last < p then m else getMinSizeAux last ps (m * 2)

/-- Python `max(layers)` for a nonempty list of naturals. -/
def maxOf (l : List ℕ) : ℕ := l.foldr max 0

/-- Model of `VGGFeatures._get_min_size(layers)` (lines 61-69). -/
def getMinSize (layers : List ℕ) : ℕ := getMinSizeAux (maxOf layers) poolLayerIdx 1

/-- Model of `sorted(set(layers))` (line 79). -/
def sortedSet (l : List ℕ) : List ℕ := insertionSort l.dedup

/-- The running activation of the `forward` loop (lines 85-89):
`applyLayers normalize layerF x n` is the value of `input` after
normalization and the first `n` layers. -/
def applyLayers (normalize : α → α) (layerF : ℕ → α → α) (x : α) : ℕ → α
  | 0 => normalize x
  | n + 1 => layerF n (applyLayers normalize layerF x n)

/-- Keys of the returned feature dict: `'input'` or a layer index. -/
inductive FKey where
  | input
  | layer (i : ℕ)
deriving DecidableEq

/-- The `ValueError` message of line 83:
`f'Input is {h}x{w} but must be at least {min_size}x{min_size}'`. -/
def minSizeError (h w m : ℕ) : String :=
  "Input is " ++ toString h ++ "x" ++ toString w ++
    " but must be at least " ++ toString m ++ "x" ++ toString m

/-- Model of `VGGFeatures.forward(input, layers)` (lines 78-90) for an explicitly
passed layer list: reads the spatial size `(h, w)` of the input, raises
`ValueError` when `min(h, w)` is below `_get_min_size`, and otherwise
returns the dict `{'input': input} ∪ {i: activation_i | i ∈ layers}`
built in loop order. -/
def vggForward (normalize : α → α) (layerF : ℕ → α → α) (h w : ℕ)
    (input : α) (layers : List ℕ) : Except String (List (FKey × α)) :=
  let ls := sortedSet layers
  let minSize := getMinSize ls
  if min h w < minSize then
    .error (minSizeError h w minSize)
  else
    .ok ((FKey.input, input) ::
      (List.range (maxOf ls + 1)).filterMap (fun i =>
        if i ∈ ls then some (FKey.layer i, applyLayers normalize layerF input (i + 1))
        else none))

lemma mem_insertSorted (x y : ℕ) (l : List ℕ) :
    y ∈ insertSorted x l ↔ y = x ∨ y ∈ l := by
  induction l with
  | nil => simp [insertSorted]
  | cons a t ih =>
    rw [insertSorted]
    split_ifs <;> simp [ih]
    tauto

lemma mem_insertionSort (y : ℕ) (l : List ℕ) :
    y ∈ insertionSort l ↔ y ∈ l := by
  induction l with
  | nil => simp [insertionSort]
  | cons a t ih => simp [insertionSort, mem_insertSorted, ih]

lemma mem_sortedSet (y : ℕ) (l : List ℕ) : y ∈ sortedSet l ↔ y ∈ l := by
  simp [sortedSet, mem_insertionSort]

lemma maxOf_le_iff (l : List ℕ) (m : ℕ) : maxOf l ≤ m ↔ ∀ x ∈ l, x ≤ m := by
  induction l with
  | nil => simp [maxOf]
  | cons a t ih =>
    simp only [maxOf, List.foldr_cons, max_le_iff, List.mem_cons] at ih ⊢
    constructor
    · rintro ⟨h1, h2⟩ x (rfl | hx)
      · exact h1
      · exact ih.mp h2 x hx
    · intro hx
      exact ⟨hx a (Or.inl rfl), ih.mpr fun x h => hx x (Or.inr h)⟩

lemma le_maxOf_of_mem {x : ℕ} {l : List ℕ} (h : x ∈ l) : x ≤ maxOf l :=
  (maxOf_le_iff l (maxOf l)).mp le_rfl x h

lemma maxOf_congr (l₁ l₂ : List ℕ) (h : ∀ x, x ∈ l₁ ↔ x ∈ l₂) :
    maxOf l₁ = maxOf l₂ := by
  refine le_antisymm ?_ ?_ <;> rw [maxOf_le_iff]
  · exact fun x hx => le_maxOf_of_mem ((h x).mp hx)
  · exact fun x hx => le_maxOf_of_mem ((h x).mpr hx)

lemma maxOf_sortedSet (l : List ℕ) : maxOf (sortedSet l) = maxOf l :=
  maxOf_congr _ _ fun x => mem_sortedSet x l

/-- The function `_get_min_size` computes `2 ^ (number of pooling stages at or before
the deepest requested layer)` — the pooling thresholds are sorted, so the
loop's early `break` agrees with counting all of them. -/
lemma getMinSize_eq_pow (layers : List ℕ) :
    getMinSize layers = 2 ^ (poolLayerIdx.countP (fun p => p ≤ maxOf layers)) := by
  set last := maxOf layers with hlast
  simp only [getMinSize, poolLayerIdx, ← hlast, List.countP_cons, List.countP_nil]
  by_cases h4 : last < 4
  · have n4 : ¬ (4 ≤ last) := by omega
    have n9 : ¬ (9 ≤ last) := by omega
    have n18 : ¬ (18 ≤ last) := by omega
    have n27 : ¬ (27 ≤ last) := by omega
    have n36 : ¬ (36 ≤ last) := by omega
    simp [getMinSizeAux, h4, n4, n9, n18, n27, n36]
  · by_cases h9 : last < 9
    · have e4 : 4 ≤ last := by omega
      have n9 : ¬ (9 ≤ last) := by omega
      have n18 : ¬ (18 ≤ last) := by omega
      have n27 : ¬ (27 ≤ last) := by omega
      have n36 : ¬ (36 ≤ last) := by omega
      simp [getMinSizeAux, h4, h9, e4, n9, n18, n27, n36]
    · by_cases h18 : last < 18
      · have e4 : 4 ≤ last := by omega
        have e9 : 9 ≤ last := by omega
        have n18 : ¬ (18 ≤ last) := by omega
        have n27 : ¬ (27 ≤ last) := by omega
        have n36 : ¬ (36 ≤ last) := by omega
        simp [getMinSizeAux, h4, h9, h18, e4, e9, n18, n27, n36]
      · by_cases h27 : last < 27
        · have e4 : 4 ≤ last := by omega
          have e9 : 9 ≤ last := by omega
          have e18 : 18 ≤ last := by omega
          have n27 : ¬ (27 ≤ last) := by omega
          have n36 : ¬ (36 ≤ last) := by omega
          simp [getMinSizeAux, h4, h9, h18, h27, e4, e9, e18, n27, n36]
        · by_cases h36 : last < 36
          · have e4 : 4 ≤ last := by omega
            have e9 : 9 ≤ last := by omega
            have e18 : 18 ≤ last := by omega
            have e27 : 27 ≤ last := by omega
            have n36 : ¬ (36 ≤ last) := by omega
            simp [getMinSizeAux, h4, h9, h18, h27, h36, e4, e9, e18, e27, n36]
          · have e4 : 4 ≤ last := by omega
            have e9 : 9 ≤ last := by omega
            have e18 : 18 ≤ last := by omega
            have e27 : 27 ≤ last := by omega
            have e36 : 36 ≤ last := by omega
            simp [getMinSizeAux, h4, h9, h18, h27, h36, e4, e9, e18, e27, e36]

/-- C8: feature extraction fails with the input-size `ValueError` exactly
when the shorter input side is below the minimum size required by the
deepest requested layer; that minimum is `2 ^ (number of downsampling
stages at or before the deepest layer)`; and on success the returned
mapping holds the raw input under `'input'` together with every requested
layer's activation. -/
theorem vgg_forward_min_size {α : Type} (normalize : α → α) (layerF : ℕ → α → α)
    (h w : ℕ) (input : α) (layers : List ℕ) (i : ℕ)
    (_hne : layers ≠ []) (hi : i ∈ layers) :
    getMinSize (sortedSet layers) =
        2 ^ (poolLayerIdx.countP (fun p => p ≤ maxOf layers)) ∧
      ((∃ e, vggForward normalize layerF h w input layers = .error e) ↔
        min h w < getMinSize (sortedSet layers)) ∧
      (getMinSize (sortedSet layers) ≤ min h w →
        ∃ feats, vggForward normalize layerF h w input layers = .ok feats ∧
          (FKey.input, input) ∈ feats ∧
          (FKey.layer i, applyLayers normalize layerF input (i + 1)) ∈ feats) := by
  have hmax : maxOf (sortedSet layers) = maxOf layers := maxOf_sortedSet layers
  refine ⟨?_, ?_, ?_⟩
  · rw [getMinSize_eq_pow, hmax]
  · constructor
    · rintro ⟨e, he⟩
      by_contra hlt
      simp only [vggForward, if_neg hlt] at he
      exact Except.noConfusion he
    · intro hlt
      refine ⟨minSizeError h w (getMinSize (sortedSet layers)), ?_⟩
      simp only [vggForward]
      rw [if_pos hlt]
  · intro hge
    have hlt : ¬ (min h w < getMinSize (sortedSet layers)) := by omega
    refine ⟨(FKey.input, input) ::
      (List.range (maxOf (sortedSet layers) + 1)).filterMap (fun j =>
        if j ∈ sortedSet layers then
          some (FKey.layer j, applyLayers normalize layerF input (j + 1))
        else none), ?_, ?_, ?_⟩
    · simp only [vggForward]
      rw [if_neg hlt]
    · exact List.mem_cons_self _ _
    · refine List.mem_cons_of_mem _ (List.mem_filterMap.mpr ⟨i, ?_, ?_⟩)
      · rw [List.mem_range, hmax, Nat.lt_succ_iff]
        exact le_maxOf_of_mem hi
      · rw [if_pos ((mem_sortedSet i layers).mpr hi)]

/-- Witness for `vgg_forward_min_size`: layers `[1, 6]` (deepest layer `6`,
one pooling stage at or before it, minimum size `2`) on an `8×8` input with
doubling layer functions over `ℚ`; extraction succeeds and returns the
input and the activation of layer `1`. -/
theorem vgg_forward_min_size_witness :
    getMinSize (sortedSet [1, 6]) =
        2 ^ (poolLayerIdx.countP (fun p => p ≤ maxOf [1, 6])) ∧
      ((∃ e, vggForward (fun x : ℚ => x + 1) (fun _ x => x * 2) 8 8 0 [1, 6] = .error e) ↔
        min 8 8 < getMinSize (sortedSet [1, 6])) ∧
      (getMinSize (sortedSet [1, 6]) ≤ min 8 8 →
        ∃ feats, vggForward (fun x : ℚ => x + 1) (fun _ x => x * 2) 8 8 0 [1, 6] = .ok feats ∧
          (FKey.input, (0 : ℚ)) ∈ feats ∧
          (FKey.layer 1, applyLayers (fun x : ℚ => x + 1) (fun _ x => x * 2) 0 (1 + 1)) ∈ feats) :=
  vgg_forward_min_size (fun x : ℚ => x + 1) (fun _ x => x * 2) 8 8 0 [1, 6] 1
    (by simp) (by simp)

/-! ## Single-scale behaviour of `gen_scales`

For C7's single-scale run (`min_scale = end_scale = e`, `e ≥ 1`) the
schedule is exactly `[e]`: the first iteration adds `e`, and every later
candidate `round(e / 2^(i/2))` with `i ≥ 1` is at most `e`, so the loop can
only ever re-add `e` before stopping, whatever the fuel. -/

lemma sq_lt_four_pow (e : ℕ) : e ^ 2 < 4 ^ e := by
  have h := Nat.lt_two_pow e
  have h4 : (4 : ℕ) ^ e = 2 ^ e * 2 ^ e := by
    rw [show (4 : ℕ) = 2 * 2 from rfl, Nat.mul_pow]
  rw [h4, pow_two]
  exact Nat.mul_lt_mul'' h h

lemma eight_sq_lt_pow (e : ℕ) : 8 * e ^ 2 < 4 ^ (e + 2) := by
  have h := sq_lt_four_pow e
  have h16 : (4 : ℕ) ^ (e + 2) = 16 * 4 ^ e := by ring
  omega

lemma natRoundHalfEven_le (a b : ℕ) (hb : 2 ≤ b) (ha : 1 ≤ a) :
    natRoundHalfEven a b ≤ a := by
  have h1 : natRoundHalfEven a b ≤ a / b + 1 := by
    simp only [natRoundHalfEven]
    split_ifs <;> omega
  have h2 : a / b ≤ a / 2 := Nat.div_le_div_left hb (by omega)
  omega

lemma roundDivPow2Half_le (e i : ℕ) (he : 1 ≤ e) (hi : 1 ≤ i) :
    roundDivPow2Half e i ≤ e := by
  simp only [roundDivPow2Half]
  split_ifs with hpar
  · have hi2 : 1 ≤ i / 2 := by omega
    have hb : 2 ≤ 2 ^ (i / 2) := by
      calc (2 : ℕ) = 2 ^ 1 := rfl
      _ ≤ 2 ^ (i / 2) := Nat.pow_le_pow_right (by omega) hi2
    exact natRoundHalfEven_le e _ hb he
  · have hsq : isqrt (e + 2) (8 * e ^ 2) = Nat.sqrt (8 * e ^ 2) :=
      isqrt_eq (e + 2) (8 * e ^ 2) (eight_sq_lt_pow e)
    have hb : 2 ≤ 2 ^ (i / 2 + 1) := by
      calc (2 : ℕ) = 2 ^ 1 := rfl
      _ ≤ 2 ^ (i / 2 + 1) := Nat.pow_le_pow_right (by omega) (by omega)
    have h3e : Nat.sqrt (8 * e ^ 2) ≤ 3 * e := by
      have : Nat.sqrt (8 * e ^ 2) < 3 * e + 1 :=
        Nat.sqrt_lt'.mpr (by nlinarith)
      omega
    rw [hsq]
    set b := 2 ^ (i / 2 + 1) with hbdef
    have hdiv : (Nat.sqrt (8 * e ^ 2) + b) / (2 * b) < e + 1 := by
      rw [Nat.div_lt_iff_lt_mul (by omega)]
      nlinarith
    omega

lemma genScalesAux_mono (start endv : ℕ) :
    ∀ fuel i scale acc x, x ∈ acc → x ∈ genScalesAux start endv fuel i scale acc := by
  intro fuel
  induction fuel with
  | zero => intro i scale acc x hx; simpa [genScalesAux] using hx
  | succ fuel ih =>
    intro i scale acc x hx
    rw [genScalesAux]
    split_ifs
    · exact ih _ _ _ x (by rw [List.mem_insert_iff]; exact Or.inr hx)
    · exact hx

lemma genScalesAux_self_sub (e : ℕ) (he : 1 ≤ e) :
    ∀ fuel i scale acc,
      ((i = 0 ∧ scale = e) ∨ (1 ≤ i ∧ scale = roundDivPow2Half e i)) →
      (∀ x ∈ acc, x = e) →
      ∀ x ∈ genScalesAux e e fuel i scale acc, x = e := by
  intro fuel
  induction fuel with
  | zero => intro i scale acc _ hacc; simpa [genScalesAux] using hacc
  | succ fuel ih =>
    intro i scale acc hinv hacc
    rw [genScalesAux]
    split_ifs with hg
    · have hse : scale = e := by
        rcases hinv with ⟨_, rfl⟩ | ⟨hi, rfl⟩
        · rfl
        · exact le_antisymm (roundDivPow2Half_le e i he hi) hg
      refine ih (i + 1) _ _ (Or.inr ⟨by omega, rfl⟩) ?_
      intro x hx
      rcases List.mem_insert_iff.mp hx with rfl | hx
      · exact hse
      · exact hacc x hx
    · exact hacc

lemma genScalesAux_nodup (start endv : ℕ) :
    ∀ fuel i scale acc, acc.Nodup →
      (genScalesAux start endv fuel i scale acc).Nodup := by
  intro fuel
  induction fuel with
  | zero => intro i scale acc h; simpa [genScalesAux] using h
  | succ fuel ih =>
    intro i scale acc h
    rw [genScalesAux]
    split_ifs
    · exact ih _ _ _ h.insert
    · exact h

lemma eq_singleton_of_mem_all (e : ℕ) (l : List ℕ) (hmem : e ∈ l)
    (hall : ∀ x ∈ l, x = e) (hnd : l.Nodup) : l = [e] := by
  cases l with
  | nil => simp at hmem
  | cons a t =>
    have ha : a = e := hall a (List.mem_cons_self a t)
    subst ha
    cases t with
    | nil => rfl
    | cons b t' =>
      have hb : b = a := hall b (by simp)
      subst hb
      simp at hnd

lemma gen_scales_self (e : ℕ) (he : 1 ≤ e) : gen_scales e e = [e] := by
  rw [gen_scales]
  have hmem : e ∈ genScalesAux e e (2 * e + 4) 0 e [] := by
    rw [show 2 * e + 4 = (2 * e + 3) + 1 from rfl, genScalesAux, if_pos le_rfl]
    exact genScalesAux_mono e e _ _ _ _ e (by rw [List.mem_insert_iff]; left; rfl)
  have hall : ∀ x ∈ genScalesAux e e (2 * e + 4) 0 e [], x = e :=
    genScalesAux_self_sub e he _ 0 e [] (Or.inl ⟨rfl, rfl⟩) (by simp)
  have hnd : (genScalesAux e e (2 * e + 4) 0 e []).Nodup :=
    genScalesAux_nodup e e _ 0 e [] List.nodup_nil
  rw [eq_singleton_of_mem_all e _ hmem hall hnd]
  simp [insertionSort, insertSorted]

/-! ## Single-scale `stylize` (C7)

`StyleTransfer.stylize` (lines 386-537) with the claim's parameters
`min_scale = end_scale`, `iterations = 1`, `initial_iterations = 1` (so
every scale runs exactly one optimizer step), the default
`init='content'` and `optimizer='adam'`.  Image tensors carry their
spatial size `(h, w)` explicitly next to a total value function; external
float collaborators — PIL bicubic resampling, `F.interpolate`, and the
Adam step (whose gradients come through the loss closure and whose update
divides by a floating square root) — are abstracted as value-producing
functions, while every shape, clamp, averaging and scheduling decision is
embedded from the source. -/

/-- A `1×3×h×w` image tensor, flattened over the batch and channel
dimensions: spatial size plus values (channel-independent reasoning only
needs one value plane per pixel index pair). -/
structure Tensor where
  h : ℕ
  w : ℕ
  data : ℕ → ℕ → ℚ

/-- Model of `.clamp(0, 1)` / `.clamp_(0, 1)`: elementwise `min(max(v, 0), 1)`,
size preserved. -/
def Tensor.clamp01 (t : Tensor) : Tensor :=
  ⟨t.h, t.w, fun i j => min (max (t.data i j) 0) 1⟩

/-- The `interpolate` wrapper (lines 316-319) at target size `(h, w)`,
`mode='bicubic'` (line 458): output spatial size is the target; resampled
values are produced by the abstract collaborator `resample`. -/
def interpolateT (resample : Tensor → ℕ → ℕ → ℕ → ℕ → ℚ) (t : Tensor)
    (h w : ℕ) : Tensor :=
  ⟨h, w, resample t h w⟩

/-- A PIL image: its `.size` is `(w, h)`, and
`TF.to_tensor(img.resize((cw, ch), Image.BICUBIC))` yields a `ch × cw`
tensor whose values `pix cw ch` are an abstract collaborator. -/
structure PILImage where
  w : ℕ
  h : ℕ
  pix : ℕ → ℕ → ℕ → ℕ → ℚ

/-- Model of `TF.to_tensor(image.resize((cw, ch), Image.BICUBIC))[None]`
(lines 420, 455). -/
def toTensorResized (img : PILImage) (cw ch : ℕ) : Tensor :=
  ⟨ch, cw, img.pix cw ch⟩

/-- Model of `size_to_fit(size, max_dim, scale_up)` (lines 293-302); `size` is
`(w, h)` and the result is `(new_w, new_h)`.  Python `round` on the exact
ratio is `natRoundHalfEven`. -/
def size_to_fit (size : ℕ × ℕ) (maxDim : ℕ) (scaleUp : Bool) : ℕ × ℕ :=
  let w := size.1
  let h := size.2
  if ¬ scaleUp ∧ max h w ≤ maxDim then (w, h)
  else if h > w then (natRoundHalfEven (maxDim * w) h, maxDim)
  else (maxDim, natRoundHalfEven (maxDim * h) w)

/-- The `EMA` module applied to the image tensor (line 459): same
recurrences as `EMAState`, with the buffer shapes fixed by the seeding
image (`torch.zeros_like` and the in-place `value` updates). -/
structure EMAT where
  value : Tensor
  decay : ℚ
  accum : ℚ

def EMAT.update (e : EMAT) (x : Tensor) : EMAT :=
  { e with
    accum := e.accum * e.decay
    value := ⟨e.value.h, e.value.w, fun i j =>
      e.decay * e.value.data i j + (1 - e.decay) * x.data i j⟩ }

def EMAT.init (input : Tensor) (decay : ℚ) : EMAT :=
  EMAT.update ⟨⟨input.h, input.w, fun _ _ => 0⟩, decay, 1⟩ input

def EMAT.get (e : EMAT) : Tensor :=
  ⟨e.value.h, e.value.w, fun i j => e.value.data i j / (1 - e.accum)⟩

/-- The input-size check of the per-style-image feature pass (lines
470-478): each style image is fitted with
`size_to_fit(image.size, round(scale * style_scale_fac))` — `scale_up`
defaulting to `False`, and `round(scale * 1.0) = scale` at the default
`style_scale_fac = 1.0`, `style_size = None` — resized to `(sw, sh)`
(a `sh × sw` tensor), and fed to `self.model(style,
layers=self.style_layers)`, which raises the `forward` size `ValueError`
when `min(sh, sw)` is below `_get_min_size(style_layers)`.  Returns the
first such error, in order, if any. -/
def styleError (styles : List PILImage) (scale : ℕ) : Option String :=
  styles.findSome? fun s =>
    let sw := (size_to_fit (s.w, s.h) scale false).1
    let sh := (size_to_fit (s.w, s.h) scale false).2
    if min sh sw < getMinSize (sortedSet styleLayers) then
      some (minSizeError sh sw (getMinSize (sortedSet styleLayers)))
    else none

/-- One cycle of the `for scale in scales` loop (lines 450-535) with a
one-iteration budget: fit the content size, resample the working image to
it (bicubic, clamp `[0,1]`), seed a fresh running average, then run the
three feature-extraction passes' input-size checks in program order —
`self.model(content, layers=self.content_layers)` (line 463),
`self.model(style, layers=self.style_layers)` per style image (line 478),
and `self.model(self.image)` with the full layer set inside the optimizer
closure (line 511) — each of which raises the `forward` size `ValueError`;
if none raises, run one optimizer step (`step` abstracts
`opt.step(closure)`: the loss pipeline and the Adam arithmetic), clamp,
update the average, and commit the average's value as the next working
image.  Returns the committed image with the scale's running average, or
the raised error. -/
def scaleStep (resample : Tensor → ℕ → ℕ → ℕ → ℕ → ℚ) (step : Tensor → Tensor)
    (d : ℚ) (content : PILImage) (styles : List PILImage) (image : Tensor)
    (scale : ℕ) : Except String (Tensor × EMAT) :=
  let cw := (size_to_fit (content.w, content.h) scale true).1
  let ch := (size_to_fit (content.w, content.h) scale true).2
  let image1 := (interpolateT resample image ch cw).clamp01
  let avg := EMAT.init image1 d
  if min ch cw < getMinSize (sortedSet contentLayers) then
    .error (minSizeError ch cw (getMinSize (sortedSet contentLayers)))
  else
    match styleError styles scale with
    | some e => .error e
    | none =>
      if min ch cw < getMinSize (sortedSet (styleLayers ++ contentLayers)) then
        .error (minSizeError ch cw (getMinSize (sortedSet (styleLayers ++ contentLayers))))
      else
        let image2 := (step image1).clamp01
        let avg2 := avg.update image2
        .ok (avg2.get, avg2)

/-- The scale loop, threading the working image, remembering the last
scale's running average (`self.average`), and propagating any raised
input-size error (which aborts the run). -/
def stylizeLoop (resample : Tensor → ℕ → ℕ → ℕ → ℕ → ℚ) (step : Tensor → Tensor)
    (d : ℚ) (content : PILImage) (styles : List PILImage) :
    Tensor → Option EMAT → List ℕ → Except String (Tensor × Option EMAT)
  | image, avg, [] => .ok (image, avg)
  | image, _, s :: rest =>
    match scaleStep resample step d content styles image s with
    | .error e => .error e
    | .ok r => stylizeLoop resample step d content styles r.1 (some r.2) rest

/-- A single-scale `stylize` run (`min_scale = end_scale`,
`iterations = initial_iterations = 1`, `init='content'`): build the scale
schedule, initialize the image from the resized content (lines 418-420),
run the loop, and return `get_image_tensor` — the final running average's
bias-corrected value clamped to `[0,1]` (lines 372-373); `None` if no
scale ever ran — or propagate the input-size `ValueError`. -/
def stylizeSingleRun (resample : Tensor → ℕ → ℕ → ℕ → ℕ → ℚ)
    (step : Tensor → Tensor) (content : PILImage) (styles : List PILImage)
    (endScale : ℕ) (d : ℚ) : Except String (Option Tensor) :=
  let scales := gen_scales (min endScale endScale) endScale
  let cw0 := (size_to_fit (content.w, content.h) (scales.headD 0) true).1
  let ch0 := (size_to_fit (content.w, content.h) (scales.headD 0) true).2
  let image0 := toTensorResized content cw0 ch0
  match stylizeLoop resample step d content styles image0 none scales with
  | .error e => .error e
  | .ok r => .ok (r.2.map fun a => a.get.clamp01)

set_option maxRecDepth 4000 in
/-- C7 (counterexample): the claim fails for some content/style pairs: a
`1×16` style image at a single-scale run with `end_scale = 16` keeps size
`(1, 16)` under `size_to_fit(·, 16, scale_up=False)`, whose shorter side
`1` is below the style layers' minimum `16`, so `stylize` raises the
input-size `ValueError` (from line 478) instead of returning an image. -/
theorem stylize_single_scale_raises :
    ∃ e, stylizeSingleRun (fun _ _ _ _ _ => 0) (fun t => t)
        ⟨16, 16, fun _ _ _ _ => 0⟩ [⟨1, 16, fun _ _ _ _ => 0⟩] 16 (1 / 2) =
      .error e :=
  ⟨_, rfl⟩

/-- C7 (amended): a single-scale run with one iteration per scale, for
every content/style pair *whose feature-extraction passes all satisfy the
input-size minima* — the fitted content size at least the content layers'
minimum and the full layer set's minimum on its shorter side, and no style
image fitted below the style layers' minimum — returns an image whose
spatial size is exactly the requested one,
`size_to_fit(content.size, end_scale, scale_up=True)`, and all of whose
values lie in `[0, 1]`; otherwise the run raises the input-size error. -/
theorem stylize_single_scale_output (resample : Tensor → ℕ → ℕ → ℕ → ℕ → ℚ)
    (step : Tensor → Tensor) (content : PILImage) (styles : List PILImage)
    (endScale : ℕ) (d : ℚ) (i j : ℕ)
    (_hstep : ∀ t, (step t).h = t.h ∧ (step t).w = t.w)
    (he : 1 ≤ endScale)
    (hcont : getMinSize (sortedSet contentLayers) ≤
      min (size_to_fit (content.w, content.h) endScale true).2
        (size_to_fit (content.w, content.h) endScale true).1)
    (hfull : getMinSize (sortedSet (styleLayers ++ contentLayers)) ≤
      min (size_to_fit (content.w, content.h) endScale true).2
        (size_to_fit (content.w, content.h) endScale true).1)
    (hsty : styleError styles endScale = none) :
    ∃ out, stylizeSingleRun resample step content styles endScale d = .ok (some out) ∧
      out.w = (size_to_fit (content.w, content.h) endScale true).1 ∧
      out.h = (size_to_fit (content.w, content.h) endScale true).2 ∧
      0 ≤ out.data i j ∧ out.data i j ≤ 1 := by
  have hscales : gen_scales (min endScale endScale) endScale = [endScale] := by
    rw [min_self]
    exact gen_scales_self endScale he
  have h1 : ¬ (min (size_to_fit (content.w, content.h) endScale true).2
      (size_to_fit (content.w, content.h) endScale true).1 <
      getMinSize (sortedSet contentLayers)) := not_lt.mpr hcont
  have h2 : ¬ (min (size_to_fit (content.w, content.h) endScale true).2
      (size_to_fit (content.w, content.h) endScale true).1 <
      getMinSize (sortedSet (styleLayers ++ contentLayers))) := not_lt.mpr hfull
  simp only [stylizeSingleRun, hscales, List.headD_cons, stylizeLoop, scaleStep,
    hsty, h1, h2, if_false, Option.map_some']
  refine ⟨_, rfl, rfl, rfl, ?_, ?_⟩
  · exact le_min (le_max_right _ _) (by norm_num)
  · exact min_le_right _ _

set_option maxRecDepth 4000 in
/-- Witness for `stylize_single_scale_output`: identity step, zero
resampler, a `16×16` content image and one `16×16` style image at
`end_scale = 16`, decay `1/2`; all minimum-size checks pass and the run
returns a `16×16` image with values in `[0, 1]`. -/
theorem stylize_single_scale_output_witness :
    ∃ out, stylizeSingleRun (fun _ _ _ _ _ => 0) (fun t => t)
        ⟨16, 16, fun _ _ _ _ => 0⟩ [⟨16, 16, fun _ _ _ _ => 0⟩] 16 (1 / 2) =
        .ok (some out) ∧
      out.w = (size_to_fit ((16 : ℕ), (16 : ℕ)) 16 true).1 ∧
      out.h = (size_to_fit ((16 : ℕ), (16 : ℕ)) 16 true).2 ∧
      0 ≤ out.data 0 1 ∧ out.data 0 1 ≤ 1 :=
  stylize_single_scale_output (fun _ _ _ _ _ => 0) (fun t => t)
    ⟨16, 16, fun _ _ _ _ => 0⟩ [⟨16, 16, fun _ _ _ _ => 0⟩] 16 (1 / 2) 0 1
    (fun _ => ⟨rfl, rfl⟩) (by omega) (by decide) (by decide) (by decide)

end StyleTransferPy
